import Mathlib

set_option maxHeartbeats 1000000
set_option maxRecDepth 10000

/-!
Verification of the backlog-document-exporter repository: a shallow
embedding of client.py (RateLimiter and BacklogClient) and cli.py
(safe_name and the gather closure of export_all_documents), with theorems
about pagination, tree flattening, Content-Disposition filename parsing,
rate limiting, request error handling and attachment listing.
-/

/-- Python strings are modelled as lists of characters. -/
abbrev PyStr := List Char

/-- The double-quote character. -/
def dquote : Char := Char.ofNat 34

/-- The single-quote character. -/
def squote : Char := Char.ofNat 39

/-- Model of cli.safe_name: replace each backslash or slash character of the
name by an underscore, keeping every other character. -/
def safe_name (name : PyStr) : PyStr :=
  name.map (fun c => if c = '\\' ∨ c = '/' then '_' else c)

/-- A node of the Backlog document tree, modelling the JSON objects walked by
cli.export_all_documents: an optional name (node.get of the name key, default
empty string), an optional id key (holding the characters of str applied to
the id value), and the list of children (node.get of the children key,
default empty list). -/
inductive TreeNode : Type where
  | node (name : Option PyStr) (id : Option PyStr) (children : List TreeNode)

/-- Model of the nested function gather in cli.export_all_documents: walk the
node list in order; for each node append its sanitized name to the path, emit
the pair of the id and the new path when the node carries an id key, and
recurse into the children list when it is nonempty. -/
def gather : List TreeNode → List PyStr → List (PyStr × List PyStr)
  | [], _ => []
  | TreeNode.node name id children :: rest, path =>
    let nm := safe_name (name.getD [])
    let new_path := path ++ [nm]
    (match id with
     | some i => [(i, new_path)]
     | none => []) ++
    (if children.isEmpty then [] else gather children new_path) ++
    gather rest path
termination_by ns _ => sizeOf ns

/-- Specification-side flattening, written from the spec text for flatten:
depth-first pre-order walk carrying the raw names from the root; a node
contributes an entry exactly when it carries a document identifier, the
entry path being the sanitized names from the root down to and including the
node; children are always visited. -/
def flatten_spec : List TreeNode → List PyStr → List (PyStr × List PyStr)
  | [], _ => []
  | TreeNode.node name id children :: rest, raw_path =>
    let rp := raw_path ++ [name.getD []]
    (match id with
     | some i => [(i, rp.map safe_name)]
     | none => []) ++
    flatten_spec children rp ++
    flatten_spec rest raw_path
termination_by ns _ => sizeOf ns

/-- Result of get_document_list: the retrieved documents, the ValueError
raised by the count validation, or exhaustion of the fuel that models the
unbounded while loop. -/
inductive FetchResult (α : Type) where
  | ok (docs : List α)
  | valError (msg : String)
  | noFuel
  deriving DecidableEq

/-- Model of BacklogClient.get_document_list_page: one GET of the documents
endpoint, abstracted by a server function from project id, offset and count
to the returned page. -/
def get_document_list_page {α : Type} (server : Int → Int → Int → List α)
    (project_id offset count : Int) : List α :=
  server project_id offset count

/-- Fuel-indexed model of the while loop of BacklogClient.get_document_list:
fetch the page at the current offset, append it to the result, stop when the
page is shorter than count, otherwise advance the offset by count. The
second component records the offsets of the page requests issued, in order. -/
def fetch_pages {α : Type} (server : Int → Int → Int → List α)
    (project_id count : Int) (offset : Int) : Nat → FetchResult α × List Int
  | 0 => (FetchResult.noFuel, [])
  | Nat.succ fuel =>
    let page := get_document_list_page server project_id offset count
    if (page.length : Int) < count then (FetchResult.ok page, [offset])
    else
      match fetch_pages server project_id count (offset + count) fuel with
      | (FetchResult.ok rest, offs) => (FetchResult.ok (page ++ rest), offset :: offs)
      | (r, offs) => (r, offset :: offs)

/-- Model of BacklogClient.get_document_list: reject a count outside the
range 1 to 100 before any page request is issued, then run the page loop
from offset 0. -/
def get_document_list {α : Type} (server : Int → Int → Int → List α)
    (project_id count : Int) (fuel : Nat) : FetchResult α × List Int :=
  if count < 1 ∨ 100 < count then
    (FetchResult.valError "count must be between 1 and 100", [])
  else fetch_pages server project_id count 0 fuel

/-- The default RateLimiter interval of 1.1 seconds, as a rational. -/
def default_interval : ℚ := 11 / 10

/-- The sleep_time computed inside RateLimiter.wait from the last recorded
timestamp and the current clock reading. -/
def sleep_time (interval last now : ℚ) : ℚ := last + interval - now

/-- Duration actually slept by RateLimiter.wait: the computed sleep_time when
it is positive, otherwise zero because the sleep is skipped. -/
def sleep_performed (interval last now : ℚ) : ℚ :=
  if 0 < sleep_time interval last now then sleep_time interval last now else 0

/-- A run of wait calls on one RateLimiter, modelling the wall clock as
state: each sample gives the clock reading at entry and the reading taken
after sleeping; validity demands that the second reading is at least the
first advanced by the duration slept. The second reading becomes the new
recorded last-call timestamp. -/
def ValidRun (interval : ℚ) : ℚ → List (ℚ × ℚ) → Prop
  | _, [] => True
  | last, sample :: rest =>
    sample.1 + sleep_performed interval last sample.1 ≤ sample.2 ∧
    ValidRun interval sample.2 rest

/-- An HTTP response as seen by BacklogClient._request, with the parsed JSON
body abstracted by a type parameter. -/
structure Response (α : Type) where
  status : Nat
  contentType : Option PyStr
  text : String
  content : List Nat
  json : α

/-- Result of BacklogClient._request: the RuntimeError raised after
raise_for_status, carrying the status code and the body text, or the raw
response object, the parsed JSON body, or the raw body bytes. -/
inductive ReqResult (α : Type) where
  | apiError (status : Nat) (body : String)
  | rawResponse (resp : Response α)
  | jsonValue (j : α)
  | bodyBytes (content : List Nat)

/-- True exactly when a request result is the API error. -/
def ReqResult.isApiError {α : Type} : ReqResult α → Bool
  | ReqResult.apiError _ _ => true
  | _ => false

/-- Model of BacklogClient._request applied to the received response:
raise_for_status of the requests library raises exactly for status codes
from 400 to 599; on a response that does not raise, return the full response
object when raw is set, the parsed JSON body when the Content-Type header
starts with application/json, and the body bytes otherwise. -/
def backlog_request {α : Type} (resp : Response α) (raw : Bool) : ReqResult α :=
  if 400 ≤ resp.status ∧ resp.status < 600 then
    ReqResult.apiError resp.status resp.text
  else if raw then ReqResult.rawResponse resp
  else if "application/json".data.isPrefixOf (resp.contentType.getD []) then
    ReqResult.jsonValue resp.json
  else ReqResult.bodyBytes resp.content

/-- A dynamically-typed JSON value, as far as get_document_attachments needs
to distinguish: list values versus non-list values. -/
inductive PyVal : Type where
  | pyList (items : List PyVal)
  | pyStr (s : String)
  | pyInt (n : Int)
  | pyNone

/-- True exactly on list values, modelling isinstance of list. -/
def PyVal.isList : PyVal → Bool
  | PyVal.pyList _ => true
  | _ => false

/-- Model of BacklogClient.get_document_attachments applied to the fetched
document info dict: info.get of the attachments key with an empty-list
default, followed by the isinstance list check. -/
def get_document_attachments (info : List (String × PyVal)) : List PyVal :=
  match (info.lookup "attachments").getD (PyVal.pyList []) with
  | PyVal.pyList xs => xs
  | _ => []

/-- Hexadecimal digit value of a character, if any. -/
def hex_val (c : Char) : Option Nat :=
  if 48 ≤ c.toNat ∧ c.toNat ≤ 57 then some (c.toNat - 48)
  else if 97 ≤ c.toNat ∧ c.toNat ≤ 102 then some (c.toNat - 87)
  else if 65 ≤ c.toNat ∧ c.toNat ≤ 70 then some (c.toNat - 55)
  else none

/-- The Unicode replacement character, produced for malformed UTF-8. -/
def repl_char : Char := Char.ofNat 65533

/-- Fuel-indexed worker decoding a byte list as UTF-8 with the replacement
character on malformed input; each step consumes at least one byte, so fuel
equal to the length of the list makes the zero case unreachable. -/
def utf8_decode_go : Nat → List Nat → List Char
  | 0, _ => []
  | Nat.succ fuel, l =>
    match l with
    | [] => []
    | b :: rest =>
      if b < 128 then Char.ofNat b :: utf8_decode_go fuel rest
      else if 192 ≤ b ∧ b < 224 then
        match rest with
        | b2 :: rest2 =>
          if 128 ≤ b2 ∧ b2 < 192 then
            (let cp := (b - 192) * 64 + (b2 - 128)
             if 128 ≤ cp then Char.ofNat cp else repl_char) :: utf8_decode_go fuel rest2
          else repl_char :: utf8_decode_go fuel rest
        | [] => [repl_char]
      else if 224 ≤ b ∧ b < 240 then
        match rest with
        | b2 :: b3 :: rest2 =>
          if 128 ≤ b2 ∧ b2 < 192 ∧ 128 ≤ b3 ∧ b3 < 192 then
            (let cp := (b - 224) * 4096 + (b2 - 128) * 64 + (b3 - 128)
             if 2048 ≤ cp ∧ (cp < 55296 ∨ 57343 < cp) then Char.ofNat cp
             else repl_char) :: utf8_decode_go fuel rest2
          else repl_char :: utf8_decode_go fuel rest
        | _ => repl_char :: utf8_decode_go fuel rest
      else if 240 ≤ b ∧ b < 248 then
        match rest with
        | b2 :: b3 :: b4 :: rest2 =>
          if 128 ≤ b2 ∧ b2 < 192 ∧ 128 ≤ b3 ∧ b3 < 192 ∧ 128 ≤ b4 ∧ b4 < 192 then
            (let cp := (b - 240) * 262144 + (b2 - 128) * 4096 +
                (b3 - 128) * 64 + (b4 - 128)
             if 65536 ≤ cp ∧ cp ≤ 1114111 then Char.ofNat cp else repl_char)
              :: utf8_decode_go fuel rest2
          else repl_char :: utf8_decode_go fuel rest
        | _ => repl_char :: utf8_decode_go fuel rest
      else repl_char :: utf8_decode_go fuel rest

/-- Decode a byte list as UTF-8, emitting the replacement character on
malformed input, as the Python bytes decode with utf-8 and replace does on
the well-formed inputs exercised by the claims. -/
def utf8_decode (bs : List Nat) : List Char :=
  utf8_decode_go bs.length bs

/-- Fuel-indexed worker for the percent scanner; fuel equal to the length of
the character list makes the zero case unreachable. -/
def unq_tokens_go : Nat → List Char → List (Nat ⊕ Char)
  | 0, _ => []
  | Nat.succ fuel, l =>
    match l with
    | [] => []
    | c :: rest =>
      if c = '%' then
        match rest with
        | a :: b :: rest2 =>
          match hex_val a, hex_val b with
          | some ha, some hb => Sum.inl (ha * 16 + hb) :: unq_tokens_go fuel rest2
          | _, _ => Sum.inl 37 :: unq_tokens_go fuel rest
        | _ => Sum.inl 37 :: unq_tokens_go fuel rest
      else if c.toNat < 128 then Sum.inl c.toNat :: unq_tokens_go fuel rest
      else Sum.inr c :: unq_tokens_go fuel rest

/-- Percent scanner underlying the unquote function of urllib that requests
re-exports: ASCII characters and valid percent escapes become bytes, other
characters pass through and break the byte run. -/
def unq_tokens (s : List Char) : List (Nat ⊕ Char) :=
  unq_tokens_go s.length s

/-- Decode the token stream: maximal byte runs are decoded as UTF-8 and
pass-through characters are emitted directly. The accumulator collects the
current byte run in reverse. -/
def decode_tokens : List (Nat ⊕ Char) → List Nat → List Char
  | [], pending => utf8_decode pending.reverse
  | Sum.inl b :: rest, pending => decode_tokens rest (b :: pending)
  | Sum.inr c :: rest, pending =>
    utf8_decode pending.reverse ++ c :: decode_tokens rest []

/-- Model of the unquote function of requests.utils, which is the unquote of
urllib.parse with UTF-8 encoding and replacement on errors: percent-decode
the byte runs and decode each run as UTF-8. -/
def unquote (s : PyStr) : PyStr :=
  decode_tokens (unq_tokens s) []

/-- Python substring containment of sub in s. -/
def py_in (sub s : PyStr) : Bool :=
  (List.range (s.length + 1)).any (fun i => sub.isPrefixOf (s.drop i))

/-- Fuel-indexed worker for py_split; the fuel bounds the number of
characters consumed and is instantiated with the length of the string. -/
def py_split_go (sep : PyStr) : Nat → PyStr → PyStr → List PyStr
  | 0, acc, s => [acc.reverse ++ s]
  | Nat.succ fuel, acc, s =>
    match s with
    | [] => [acc.reverse]
    | c :: rest =>
      if sep.isPrefixOf (c :: rest) then
        acc.reverse :: py_split_go sep fuel [] (rest.drop (sep.length - 1))
      else py_split_go sep fuel (c :: acc) rest

/-- Python str.split with a nonempty separator: split on non-overlapping
occurrences, scanning left to right. -/
def py_split (sep s : PyStr) : List PyStr :=
  py_split_go sep s.length [] s

/-- Python split with maxsplit one, second component: the text after the
first occurrence of the separator; empty when the separator does not occur,
a case the caller guards against with py_in. -/
def after_first (sep : PyStr) : PyStr → PyStr
  | [] => []
  | c :: rest =>
    if sep.isPrefixOf (c :: rest) then rest.drop (sep.length - 1)
    else after_first sep rest

/-- Python split followed by taking the final element: the text after the
last occurrence of the separator, the whole string when it does not occur. -/
def after_last (sep s : PyStr) : PyStr :=
  (py_split sep s).getLastD []

/-- Python split followed by taking the first element: the text before the
first occurrence of the separator. -/
def first_field (sep s : PyStr) : PyStr :=
  (py_split sep s).headD []

/-- ASCII whitespace, the relevant subset of the default strip set. -/
def py_space (c : Char) : Bool :=
  c.toNat == 32 || c.toNat == 9 || c.toNat == 10 || c.toNat == 13 ||
    c.toNat == 11 || c.toNat == 12

/-- Strip characters satisfying p from both ends of the string. -/
def py_strip_by (p : Char → Bool) (s : PyStr) : PyStr :=
  ((s.dropWhile p).reverse.dropWhile p).reverse

/-- Python strip with no argument: remove surrounding whitespace. -/
def py_strip (s : PyStr) : PyStr := py_strip_by py_space s

/-- Python strip with a double-quote argument: remove surrounding
double-quote characters. -/
def strip_dquotes (s : PyStr) : PyStr := py_strip_by (fun c => c == dquote) s

/-- The characters of the extended parameter key, filename star equals. -/
def fstar_key : PyStr := "filename*=".data

/-- The characters of the plain parameter key, filename equals. -/
def fplain_key : PyStr := "filename=".data

/-- Two single quotes, separating the charset and language prefix from the
value in the extended filename form. -/
def two_squotes : PyStr := [squote, squote]

/-- Model of BacklogClient._parse_filename, extended branch: the text after
the last occurrence of the extended key, cut at the first semicolon and
stripped; when a pair of single quotes occurs, keep only the text after the
first pair; finally unquote after removing surrounding double quotes. -/
def extended_filename (disposition : PyStr) : PyStr :=
  let part := py_strip (first_field [';'] (after_last fstar_key disposition))
  let part2 := if py_in two_squotes part then after_first two_squotes part else part
  unquote (strip_dquotes part2)

/-- Model of BacklogClient._parse_filename, plain branch: the text after the
last occurrence of the plain key, cut at the first semicolon, stripped, with
surrounding double quotes removed. -/
def plain_filename (disposition : PyStr) : PyStr :=
  strip_dquotes (py_strip (first_field [';'] (after_last fplain_key disposition)))

/-- Model of BacklogClient._parse_filename: the extended branch when the
extended key occurs in the header, else the plain branch when the plain key
occurs, else no filename. -/
def parse_filename (disposition : PyStr) : Option PyStr :=
  if py_in fstar_key disposition then some (extended_filename disposition)
  else if py_in fplain_key disposition then some (plain_filename disposition)
  else none

/-- Python truthiness fallback, a or b, for an optional string a. -/
def py_or (a : Option PyStr) (b : PyStr) : PyStr :=
  match a with
  | some s => if s = [] then b else s
  | none => b

/-- Filename written by BacklogClient.download_attachment: the override when
given and nonempty, else the parsed Content-Disposition name when parsing
succeeded with a nonempty name, else the decimal string of the attachment
id. -/
def download_attachment_filename (disposition : PyStr) (attachment_id : Int)
    (filename : Option PyStr) : PyStr :=
  let parsed_name := parse_filename disposition
  match filename with
  | some f => if f = [] then py_or parsed_name (toString attachment_id).data else f
  | none => py_or parsed_name (toString attachment_id).data

/-- Example header carrying a plain filename parameter quoting report.pdf. -/
def d_plain : PyStr :=
  "attachment; filename=".data ++ [dquote] ++ "report.pdf".data ++ [dquote]

/-- Example header carrying an extended filename parameter with a UTF-8
charset prefix and percent-encoded combining accents. -/
def d_ext : PyStr :=
  "attachment; filename*=UTF-8".data ++ two_squotes ++ "re%CC%81sume%CC%81.pdf".data

/-- The decoded extended example: resume spelled with combining acute
accents, the UTF-8 decoding of the percent-encoded bytes. -/
def ext_expected : PyStr :=
  "re".data ++ [Char.ofNat 769] ++ "sume".data ++ [Char.ofNat 769] ++ ".pdf".data

/-- Example header carrying both the plain and the extended form. -/
def d_both : PyStr :=
  "attachment; filename=".data ++ [dquote] ++ "plain.txt".data ++ [dquote] ++
    "; filename*=UTF-8".data ++ two_squotes ++ "ext.txt".data

/-- Server for the pagination example: pages of 100, 100 and 37 items at
offsets 0, 100 and 200. -/
def demo_server : Int → Int → Int → List Nat :=
  fun _ offset _ =>
    if offset = 0 then List.range 100
    else if offset = 100 then List.range 100
    else if offset = 200 then List.range 37
    else []

/-- Demo tree: a folder node without an id containing two leaf documents. -/
def demo_folder : TreeNode :=
  TreeNode.node (some "F".data) none
    [TreeNode.node (some "a".data) (some "1".data) [],
     TreeNode.node (some "b".data) (some "2".data) []]

/-- Demo document info dict carrying a proper attachments list. -/
def demo_info : List (String × PyVal) :=
  [("id", PyVal.pyInt 1), ("attachments", PyVal.pyList [PyVal.pyStr "a.txt"])]

/-- Example non-2xx response that raise_for_status does not raise on. -/
def resp_304 : Response Nat := ⟨304, some "text/plain".data, "Not Modified", [1, 2], 0⟩

/-- Example 2xx JSON response. -/
def resp_json : Response Nat := ⟨200, some "application/json".data, "[]", [91, 93], 7⟩

/-- Example server-error response. -/
def resp_500 : Response Nat := ⟨500, none, "boom", [], 0⟩

/-- Every character of a sanitized name is the image of some character under
the replacement, hence never a slash or backslash. -/
theorem mem_safe_name (s : PyStr) (c : Char) (hc : c ∈ safe_name s) :
    c ≠ '/' ∧ c ≠ '\\' := by
  simp only [safe_name, List.mem_map] at hc
  obtain ⟨a, _, ha⟩ := hc
  by_cases h : a = '\\' ∨ a = '/'
  · simp only [if_pos h] at ha
    subst ha
    decide
  · simp only [if_neg h] at ha
    subst ha
    push_neg at h
    exact ⟨h.2, h.1⟩

/-- Sanitizing an already sanitized name changes nothing. -/
theorem safe_name_idem (s : PyStr) : safe_name (safe_name s) = safe_name s := by
  simp only [safe_name, List.map_map]
  apply List.map_congr_left
  intro a _
  by_cases h : a = '\\' ∨ a = '/' <;> simp [Function.comp, h]

/-- Every segment of every path emitted by gather is a sanitized name,
provided every segment of the starting path already is one. -/
theorem gather_segments : ∀ (ns : List TreeNode) (path : List PyStr),
    (∀ seg ∈ path, ∃ s, seg = safe_name s) →
    ∀ pr ∈ gather ns path, ∀ seg ∈ pr.2, ∃ s, seg = safe_name s := by
  intro ns path
  induction ns, path using gather.induct with
  | case1 path =>
    intro _ pr hpr
    simp [gather] at hpr
  | case2 name id children rest path nm new_path ih1 ih2 =>
    intro h pr hpr
    have hpath2 : ∀ seg ∈ path ++ [safe_name (name.getD [])], ∃ s, seg = safe_name s := by
      intro seg hseg
      rcases List.mem_append.mp hseg with h1 | h1
      · exact h seg h1
      · simp only [List.mem_singleton] at h1
        exact ⟨name.getD [], h1⟩
    rcases id with _ | i
    · simp only [gather, List.nil_append] at hpr
      rcases List.mem_append.mp hpr with h1 | h1
      · by_cases hch : children.isEmpty
        · rw [if_pos hch] at h1
          simp at h1
        · rw [if_neg hch] at h1
          exact ih1 hpath2 pr h1
      · exact ih2 h pr h1
    · simp only [gather] at hpr
      rcases List.mem_append.mp hpr with h1 | h1
      · rcases List.mem_append.mp h1 with h2 | h2
        · simp only [List.mem_singleton] at h2
          subst h2
          exact hpath2
        · by_cases hch : children.isEmpty
          · rw [if_pos hch] at h2
            simp at h2
          · rw [if_neg hch] at h2
            exact ih1 hpath2 pr h2
      · exact ih2 h pr h1

/-- Claim C7: safe_name keeps the length of the name, maps every slash and
backslash occurrence to an underscore, keeps every other character, and in
particular turns the name A slash B into A underscore B. -/
theorem safe_name_spec (s : PyStr) :
    (safe_name s).length = s.length ∧
    (∀ (i : Nat) (c : Char), s[i]? = some c →
      ((c ≠ '/' ∧ c ≠ '\\' → (safe_name s)[i]? = some c) ∧
       (c = '/' ∨ c = '\\' → (safe_name s)[i]? = some '_'))) ∧
    safe_name "A/B".data = "A_B".data := by
  refine ⟨by simp [safe_name], ?_, by decide⟩
  intro i c hc
  constructor
  · intro h
    have hne : ¬(c = '\\' ∨ c = '/') := by
      push_neg
      exact ⟨h.2, h.1⟩
    simp only [safe_name, List.getElem?_map, hc, Option.map_some']
    rw [if_neg hne]
  · intro h
    simp only [safe_name, List.getElem?_map, hc, Option.map_some']
    rw [if_pos h.symm]

/-- Witness for safe_name_spec at the name A slash B and index 1. -/
theorem safe_name_spec_witness :
    (safe_name "A/B".data).length = ("A/B".data : PyStr).length ∧
    (safe_name "A/B".data)[1]? = some '_' :=
  ⟨(safe_name_spec "A/B".data).1,
   ((safe_name_spec "A/B".data).2.1 1 '/' (by decide)).2 (by decide)⟩

/-- Claim C9: safe_name is idempotent, its output never contains a slash or
backslash, and every path segment produced by the gather step of the export
is a fixed point of safe_name containing no path separator. -/
theorem safe_name_idempotent_spec :
    (∀ s : PyStr, safe_name (safe_name s) = safe_name s) ∧
    (∀ (s : PyStr) (c : Char), c ∈ safe_name s → c ≠ '/' ∧ c ≠ '\\') ∧
    (∀ (ns : List TreeNode) (pr : PyStr × List PyStr), pr ∈ gather ns [] →
      ∀ seg ∈ pr.2, safe_name seg = seg ∧ ('/' ∉ seg ∧ '\\' ∉ seg)) := by
  refine ⟨safe_name_idem, mem_safe_name, ?_⟩
  intro ns pr hpr seg hseg
  obtain ⟨s, hs⟩ := gather_segments ns [] (by simp) pr hpr seg hseg
  subst hs
  refine ⟨safe_name_idem s, ?_, ?_⟩
  · intro hmem
    exact (mem_safe_name s _ hmem).1 rfl
  · intro hmem
    exact (mem_safe_name s _ hmem).2 rfl

/-- Witness for safe_name_idempotent_spec: idempotence at A slash B and the
segment property on the demo folder tree. -/
theorem safe_name_idempotent_spec_witness :
    safe_name (safe_name "A/B".data) = safe_name "A/B".data ∧
    (∀ seg ∈ (("1".data, ["F".data, "a".data]) : PyStr × List PyStr).2,
      safe_name seg = seg ∧ ('/' ∉ seg ∧ '\\' ∉ seg)) := by
  constructor
  · exact safe_name_idempotent_spec.1 "A/B".data
  · apply safe_name_idempotent_spec.2.2 [demo_folder]
    have hF : safe_name "F".data = "F".data := by decide
    have ha : safe_name "a".data = "a".data := by decide
    have hb : safe_name "b".data = "b".data := by decide
    simp [gather, demo_folder, hF, ha, hb]

/-- Claim C8: get_document_attachments returns the attachments field when it
is a list, and the empty list when the field is absent or not a list. -/
theorem get_document_attachments_spec (info : List (String × PyVal)) :
    (∀ xs, info.lookup "attachments" = some (PyVal.pyList xs) →
      get_document_attachments info = xs) ∧
    (info.lookup "attachments" = none → get_document_attachments info = []) ∧
    (∀ v, info.lookup "attachments" = some v → v.isList = false →
      get_document_attachments info = []) := by
  refine ⟨?_, ?_, ?_⟩
  · intro xs h
    simp [get_document_attachments, h]
  · intro h
    simp [get_document_attachments, h]
  · intro v h hv
    cases v <;> simp_all [get_document_attachments, PyVal.isList]

/-- Witness for get_document_attachments_spec on three concrete dicts. -/
theorem get_document_attachments_spec_witness :
    get_document_attachments demo_info = [PyVal.pyStr "a.txt"] ∧
    get_document_attachments [("title", PyVal.pyNone)] = [] ∧
    get_document_attachments [("attachments", PyVal.pyInt 3)] = [] :=
  ⟨(get_document_attachments_spec demo_info).1 _ rfl,
   (get_document_attachments_spec [("title", PyVal.pyNone)]).2.1 rfl,
   (get_document_attachments_spec [("attachments", PyVal.pyInt 3)]).2.2
     (PyVal.pyInt 3) rfl rfl⟩

/-- The gather closure of the export equals the specification-side flatten:
running gather on the sanitized image of a raw path produces exactly the
spec flattening over the raw path. -/
theorem gather_eq_flatten_spec (ns : List TreeNode) (raw : List PyStr) :
    gather ns (raw.map safe_name) = flatten_spec ns raw := by
  induction ns, raw using flatten_spec.induct with
  | case1 raw => simp [gather, flatten_spec]
  | case2 name id children rest raw rp ih1 ih2 =>
    have hrp : rp = raw ++ [name.getD []] := rfl
    rw [hrp] at ih1
    have ih1s : gather children (raw.map safe_name ++ [safe_name (name.getD [])]) =
        flatten_spec children (raw ++ [name.getD []]) := by
      simpa [List.map_append] using ih1
    rcases id with _ | i
    · simp only [gather, flatten_spec, List.nil_append]
      by_cases hch : children.isEmpty
      · have hc : children = [] := List.isEmpty_iff.mp hch
        subst hc
        simp [flatten_spec, ih2]
      · rw [if_neg hch, ih1s, ih2]
    · simp only [gather, flatten_spec]
      by_cases hch : children.isEmpty
      · have hc : children = [] := List.isEmpty_iff.mp hch
        subst hc
        simp [flatten_spec, ih2, List.map_append]
      · rw [if_neg hch, ih1s, ih2]
        simp [List.map_append]

/-- Claim C2: the gather step is the depth-first pre-order flattening that
emits a pair exactly for id-carrying nodes, with the path being the
sanitized names from the root down to the node, continuing into children
regardless of ids; a folder without an id holding two leaf documents yields
exactly the two pairs with the folder name as prefix segment. -/
theorem gather_matches_flatten_spec :
    (∀ ns : List TreeNode, gather ns [] = flatten_spec ns []) ∧
    gather [demo_folder] [] =
      [("1".data, ["F".data, "a".data]), ("2".data, ["F".data, "b".data])] := by
  constructor
  · intro ns
    have h := gather_eq_flatten_spec ns []
    simpa using h
  · have hF : safe_name "F".data = "F".data := by decide
    have ha : safe_name "a".data = "a".data := by decide
    have hb : safe_name "b".data = "b".data := by decide
    simp [gather, demo_folder, hF, ha, hb]

/-- Claim C5 counterexample: the 304 response is not 2xx, yet the request
model raises no API error, contradicting the claimed equivalence of raising
with a non-2xx status. -/
theorem request_non2xx_counterexample :
    (backlog_request resp_304 false).isApiError = false ∧
    ¬(200 ≤ resp_304.status ∧ resp_304.status < 300) := by
  constructor
  · rfl
  · decide

/-- Claim C5 as amended: the request model errors exactly on status codes in
the 400 to 599 range, the error carries the status code and the body text,
and on a 2xx response it returns the raw response object when raw is set,
the parsed JSON when the Content-Type indicates JSON, and the body bytes
otherwise. -/
theorem request_spec {α : Type} (resp : Response α) (raw : Bool) :
    ((backlog_request resp raw).isApiError = true ↔
      400 ≤ resp.status ∧ resp.status < 600) ∧
    (400 ≤ resp.status → resp.status < 600 →
      backlog_request resp raw = ReqResult.apiError resp.status resp.text) ∧
    (200 ≤ resp.status → resp.status < 300 →
      (raw = true → backlog_request resp raw = ReqResult.rawResponse resp) ∧
      (raw = false → "application/json".data.isPrefixOf (resp.contentType.getD []) = true →
        backlog_request resp raw = ReqResult.jsonValue resp.json) ∧
      (raw = false → "application/json".data.isPrefixOf (resp.contentType.getD []) = false →
        backlog_request resp raw = ReqResult.bodyBytes resp.content)) := by
  refine ⟨⟨?_, ?_⟩, ?_, ?_⟩
  · intro h
    by_contra hc
    rw [backlog_request, if_neg hc] at h
    split_ifs at h <;> simp [ReqResult.isApiError] at h
  · intro h
    rw [backlog_request, if_pos h]
    rfl
  · intro h1 h2
    rw [backlog_request, if_pos ⟨h1, h2⟩]
  · intro h1 h2
    have hne : ¬(400 ≤ resp.status ∧ resp.status < 600) := by omega
    refine ⟨?_, ?_, ?_⟩
    · intro hr
      rw [backlog_request, if_neg hne, if_pos hr]
    · intro hr hct
      subst hr
      rw [backlog_request, if_neg hne]
      simp [hct]
    · intro hr hct
      subst hr
      rw [backlog_request, if_neg hne]
      simp [hct]

/-- Witness for request_spec: the 500 response raises with its status and
body, the JSON 200 response parses to its JSON body. -/
theorem request_spec_witness :
    backlog_request resp_500 true = ReqResult.apiError 500 "boom" ∧
    backlog_request resp_json false = ReqResult.jsonValue 7 :=
  ⟨(request_spec resp_500 true).2.1 (by decide) (by decide),
   ((request_spec resp_json false).2.2 (by decide) (by decide)).2.1 rfl (by decide)⟩

/-- Claim C6 counterexample: with the default interval, last call at 10 and
the clock moved backward to 5, the computed sleep time is 6.1 seconds,
positive rather than non-positive, so the sleep is not skipped. -/
theorem rate_limiter_backward_clock_counterexample :
    (5 : ℚ) < 10 ∧ sleep_time default_interval 10 5 = 61 / 10 ∧
    ¬(sleep_time default_interval 10 5 ≤ 0) := by
  norm_num [sleep_time, default_interval]

/-- In a valid run of wait calls, each recorded timestamp exceeds its
predecessor by at least the interval. -/
theorem valid_run_chain (interval : ℚ) (samples : List (ℚ × ℚ)) : ∀ last : ℚ,
    ValidRun interval last samples →
    List.Chain (fun a b => a + interval ≤ b) last (samples.map Prod.snd) := by
  induction samples with
  | nil =>
    intro last _
    exact List.Chain.nil
  | cons sample rest ih =>
    intro last h
    obtain ⟨h1, h2⟩ := h
    obtain ⟨n1, n2⟩ := sample
    simp only [List.map_cons]
    constructor
    · by_cases hs : 0 < sleep_time interval last n1
      · have hp : sleep_performed interval last n1 = sleep_time interval last n1 := by
          simp [sleep_performed, hs]
        rw [hp] at h1
        simp only [sleep_time] at h1
        linarith
      · have hp : sleep_performed interval last n1 = 0 := by
          simp [sleep_performed, hs]
        rw [hp] at h1
        simp only [sleep_time, not_lt] at hs
        linarith
    · exact ih n2 h2

/-- Claim C6 as amended: wait sleeps for the maximum of zero and the
computed sleep time and records the post-sleep clock value, so consecutive
recorded timestamps differ by at least the interval; the sleep is skipped
exactly when at least the interval has already elapsed since the recorded
timestamp, and a backward clock jump makes the computed sleep positive, not
non-positive. -/
theorem rate_limiter_spec (interval last now : ℚ) (samples : List (ℚ × ℚ)) :
    sleep_performed interval last now = max 0 (sleep_time interval last now) ∧
    (sleep_performed interval last now = 0 ↔ last + interval ≤ now) ∧
    (0 < interval → now < last → 0 < sleep_time interval last now) ∧
    (ValidRun interval last samples →
      List.Chain (fun a b => a + interval ≤ b) last (samples.map Prod.snd)) := by
  refine ⟨?_, ⟨?_, ?_⟩, ?_, valid_run_chain interval samples last⟩
  · rw [sleep_performed]
    rcases le_or_lt (sleep_time interval last now) 0 with h | h
    · rw [if_neg (not_lt.mpr h), max_eq_left h]
    · rw [if_pos h, max_eq_right (le_of_lt h)]
  · intro h
    rw [sleep_performed] at h
    split_ifs at h with hs
    · exfalso
      rw [h] at hs
      exact lt_irrefl 0 hs
    · rw [sleep_time, not_lt] at hs
      linarith
  · intro h
    rw [sleep_performed, if_neg]
    rw [sleep_time, not_lt]
    linarith
  · intro h1 h2
    rw [sleep_time]
    linarith

/-- Witness for rate_limiter_spec: a two-call run with the default interval
whose recorded timestamps 1.1 and 2.2 are each at least 1.1 apart. -/
theorem rate_limiter_spec_witness :
    List.Chain (fun a b : ℚ => a + 11 / 10 ≤ b) 0 [11 / 10, 11 / 5] :=
  (rate_limiter_spec (11 / 10) 0 0 [(0, 11 / 10), (2, 11 / 5)]).2.2.2
    (by norm_num [ValidRun, sleep_performed, sleep_time])

/-- Claim C10: when the header contains the extended filename key, parsing
returns the name derived from the extended form and never the plain-form
value, the extended branch being checked first. -/
theorem parse_filename_precedence (d : PyStr)
    (hstar : py_in fstar_key d = true) (_hplain : py_in fplain_key d = true) :
    parse_filename d = some (extended_filename d) := by
  simp [parse_filename, hstar]

/-- Witness for parse_filename_precedence at a header carrying both forms:
the extended derivation wins and differs from the plain-form value. -/
theorem parse_filename_precedence_witness :
    py_in fstar_key d_both = true ∧ py_in fplain_key d_both = true ∧
    parse_filename d_both = some (extended_filename d_both) ∧
    extended_filename d_both = "ext.txt".data ∧
    plain_filename d_both = "plain.txt".data :=
  ⟨by decide, by decide,
   parse_filename_precedence d_both (by decide) (by decide),
   by decide, by decide⟩

/-- Claim C3: with no override, the plain example header yields report.pdf,
the extended example header yields the URL-decoded name with the charset
prefix stripped, and a header with neither form yields the decimal
attachment id. -/
theorem download_filename_spec (aid : Int) :
    download_attachment_filename d_plain aid none = "report.pdf".data ∧
    download_attachment_filename d_ext aid none = ext_expected ∧
    (∀ d : PyStr, py_in fstar_key d = false → py_in fplain_key d = false →
      download_attachment_filename d aid none = (toString aid).data) := by
  refine ⟨?_, ?_, ?_⟩
  · have h : parse_filename d_plain = some ("report.pdf".data) := by decide
    have hne : ("report.pdf".data : PyStr) ≠ [] := by decide
    simp [download_attachment_filename, h, py_or, hne]
  · have h : parse_filename d_ext = some ext_expected := by decide
    have hne : ext_expected ≠ [] := by decide
    simp [download_attachment_filename, h, py_or, hne]
  · intro d h1 h2
    simp [download_attachment_filename, parse_filename, h1, h2, py_or]

/-- Witness for download_filename_spec at attachment id 7 and the header
with neither filename form. -/
theorem download_filename_spec_witness :
    download_attachment_filename d_plain 7 none = "report.pdf".data ∧
    download_attachment_filename d_ext 7 none = ext_expected ∧
    download_attachment_filename "attachment".data 7 none = (toString (7 : Int)).data :=
  ⟨(download_filename_spec 7).1, (download_filename_spec 7).2.1,
   (download_filename_spec 7).2.2 "attachment".data (by decide) (by decide)⟩

/-- The page loop never produces the validation error. -/
theorem fetch_pages_ne_valError {α : Type} (server : Int → Int → Int → List α)
    (project_id count : Int) : ∀ (fuel : Nat) (offset : Int) (msg : String),
    (fetch_pages server project_id count offset fuel).1 ≠ FetchResult.valError msg := by
  intro fuel
  induction fuel with
  | zero =>
    intro offset msg
    simp [fetch_pages]
  | succ fuel ih =>
    intro offset msg
    simp only [fetch_pages]
    split_ifs with h
    · simp
    · rcases hrec : fetch_pages server project_id count (offset + count) fuel with ⟨r, offs⟩
      rcases r with docs | m | _
      · simp
      · exfalso
        have h2 := ih (offset + count) m
        rw [hrec] at h2
        exact h2 rfl
      · simp

/-- Claim C4: a count below 1 or above 100 makes get_document_list fail the
validation with no page request issued, and a count in range never produces
the validation error. -/
theorem get_document_list_count_validation {α : Type}
    (server : Int → Int → Int → List α) (project_id count : Int) (fuel : Nat) :
    ((count < 1 ∨ 100 < count) →
      get_document_list server project_id count fuel =
        (FetchResult.valError "count must be between 1 and 100", [])) ∧
    (1 ≤ count → count ≤ 100 → ∀ msg : String,
      (get_document_list server project_id count fuel).1 ≠ FetchResult.valError msg) := by
  constructor
  · intro h
    simp [get_document_list, h]
  · intro h1 h2 msg
    have hne : ¬(count < 1 ∨ 100 < count) := by omega
    rw [get_document_list, if_neg hne]
    exact fetch_pages_ne_valError server project_id count fuel 0 msg

/-- Witness for get_document_list_count_validation at counts 101 and 100. -/
theorem get_document_list_count_validation_witness :
    get_document_list demo_server 1 101 3 =
      (FetchResult.valError "count must be between 1 and 100", []) ∧
    (get_document_list demo_server 1 100 3).1 ≠
      FetchResult.valError "count must be between 1 and 100" :=
  ⟨(get_document_list_count_validation demo_server 1 101 3).1 (by decide),
   (get_document_list_count_validation demo_server 1 100 3).2
     (by decide) (by decide) _⟩


/-- Run of the page loop: when the page at index k is the first one shorter
than count and the fuel exceeds k, the loop returns the concatenation of the
pages at offsets offset through offset plus k times count, requesting
exactly those offsets in order. -/
theorem fetch_pages_run {α : Type} (server : Int → Int → Int → List α)
    (project_id count : Int) : ∀ (k : Nat) (offset : Int) (fuel : Nat),
    (∀ j : Nat, j < k →
      count ≤ ((server project_id (offset + (j : Int) * count) count).length : Int)) →
    ((server project_id (offset + (k : Int) * count) count).length : Int) < count →
    k < fuel →
    fetch_pages server project_id count offset fuel =
      (FetchResult.ok (((List.range (k + 1)).map
          (fun j : Nat => server project_id (offset + (j : Int) * count) count)).flatten),
        (List.range (k + 1)).map (fun j : Nat => offset + (j : Int) * count)) := by
  intro k
  induction k with
  | zero =>
    intro offset fuel hlong hshort hfuel
    obtain ⟨fuel, rfl⟩ : ∃ f, fuel = f + 1 := ⟨fuel - 1, by omega⟩
    have hs : ((server project_id offset count).length : Int) < count := by
      simpa using hshort
    simp only [fetch_pages, get_document_list_page]
    rw [if_pos hs]
    simp only [List.range_succ, List.range_zero, List.nil_append, List.map_cons,
      List.map_nil, List.flatten_cons, List.flatten_nil, List.append_nil,
      Nat.cast_zero, zero_mul, add_zero]
  | succ k ih =>
    intro offset fuel hlong hshort hfuel
    obtain ⟨fuel, rfl⟩ : ∃ f, fuel = f + 1 := ⟨fuel - 1, by omega⟩
    have h0 : count ≤ ((server project_id offset count).length : Int) := by
      have h1 := hlong 0 (Nat.succ_pos k)
      simpa using h1
    have ihr := ih (offset + count) fuel
      (by
        intro j hj
        have h1 := hlong (j + 1) (by omega)
        push_cast at h1
        have e : offset + ((j : Int) + 1) * count = offset + count + (j : Int) * count := by
          ring
        rw [e] at h1
        exact h1)
      (by
        push_cast at hshort
        have e : offset + ((k : Int) + 1) * count = offset + count + (k : Int) * count := by
          ring
        rw [e] at hshort
        exact hshort)
      (by omega)
    simp only [fetch_pages, get_document_list_page]
    rw [if_neg (not_lt.mpr h0), ihr]
    have hfun1 : (List.range (k + 1)).map
        ((fun j : Nat => server project_id (offset + (j : Int) * count) count) ∘ Nat.succ) =
        (List.range (k + 1)).map
        (fun j : Nat => server project_id (offset + count + (j : Int) * count) count) := by
      apply List.map_congr_left
      intro j _
      simp only [Function.comp_apply]
      have e : offset + ((Nat.succ j : Nat) : Int) * count = offset + count + (j : Int) * count := by
        push_cast
        ring
      rw [e]
    have hfun2 : (List.range (k + 1)).map
        ((fun j : Nat => offset + (j : Int) * count) ∘ Nat.succ) =
        (List.range (k + 1)).map
        (fun j : Nat => offset + count + (j : Int) * count) := by
      apply List.map_congr_left
      intro j _
      simp only [Function.comp_apply]
      push_cast
      ring
    rw [List.range_succ_eq_map (k + 1)]
    simp only [List.map_cons, List.map_map, List.flatten_cons, Nat.cast_zero,
      zero_mul, add_zero]
    rw [hfun1, hfun2]

/-- Claim C1: for a valid count whose page sequence first falls short at
index k, get_document_list returns the in-order concatenation of the pages
at offsets 0, count, up to k times count, issuing exactly k plus one page
requests at those offsets. -/
theorem get_document_list_spec {α : Type} (server : Int → Int → Int → List α)
    (project_id count : Int) (k fuel : Nat)
    (hc1 : 1 ≤ count) (hc2 : count ≤ 100)
    (hlong : ∀ j : Nat, j < k →
      count ≤ ((server project_id ((j : Int) * count) count).length : Int))
    (hshort : ((server project_id ((k : Int) * count) count).length : Int) < count)
    (hfuel : k < fuel) :
    get_document_list server project_id count fuel =
      (FetchResult.ok (((List.range (k + 1)).map
          (fun j : Nat => server project_id ((j : Int) * count) count)).flatten),
        (List.range (k + 1)).map (fun j : Nat => (j : Int) * count)) ∧
    ((List.range (k + 1)).map (fun j : Nat => (j : Int) * count)).length = k + 1 := by
  constructor
  · have hne : ¬(count < 1 ∨ 100 < count) := by omega
    rw [get_document_list, if_neg hne]
    have hrun := fetch_pages_run server project_id count k 0 fuel
      (by
        intro j hj
        have h1 := hlong j hj
        simpa using h1)
      (by simpa using hshort)
      hfuel
    have e1 : (fun j : Nat => server project_id (0 + (j : Int) * count) count) =
        (fun j : Nat => server project_id ((j : Int) * count) count) := by
      funext j
      rw [zero_add]
    have e2 : (fun j : Nat => 0 + (j : Int) * count) =
        (fun j : Nat => (j : Int) * count) := by
      funext j
      rw [zero_add]
    rw [e1, e2] at hrun
    exact hrun
  · simp

/-- Witness for get_document_list_spec: pages of lengths 100, 100 and 37
concatenate to 237 items in exactly 3 requests at offsets 0, 100, 200. -/
theorem get_document_list_spec_witness :
    get_document_list demo_server 1 100 3 =
      (FetchResult.ok (((List.range 3).map
          (fun j : Nat => demo_server 1 ((j : Int) * 100) 100)).flatten),
        (List.range 3).map (fun j : Nat => (j : Int) * 100)) ∧
    (((List.range 3).map
        (fun j : Nat => demo_server 1 ((j : Int) * 100) 100)).flatten).length = 237 ∧
    ((List.range 3).map (fun j : Nat => (j : Int) * 100)) = [0, 100, 200] :=
  ⟨(get_document_list_spec demo_server 1 100 2 3 (by decide) (by decide)
      (by decide) (by decide) (by decide)).1,
   by decide, by decide⟩
